import Mathlib

/-
Verification development for the volume-raycasting renderer in
src/implementation.py.  The Python source is shallowly embedded:

* numpy scalar values and all real arithmetic are modelled by ℚ
  (every quantity the program manipulates on the inputs considered here
  is a dyadic rational, so exact arithmetic is faithful);
* `Volume` carries the three dimensions, the voxel array (as a total
  function, only in-bounds indices are relevant), and the value returned
  by `volume.get_maximum()`;
* the mutable RGBA8 frame buffer is a `FrameBuffer` (a length plus a byte
  map); a numpy out-of-bounds index error is modelled by `Option`:
  a write outside the buffer makes the whole render return `none`;
* Python `range` is embedded by `pyRange` / `pyRangeNat`;
* `math.floor` on ℚ is `Int.floor`; `math.ceil` is `Int.ceil`;
  `round` is Python round-half-to-even, embedded by `pyRound`;
* `math.floor(math.sqrt (n) / 2)` for a natural n equals
  `Nat.sqrt n / 2` (floor of a quotient of floors), see `halfDiagonal`.

The renderer class methods `render_slicer`, `render_mip`,
`render_compositing` and `visualize_annotations_only` are embedded as
functions taking the view matrix (a map from flat index to entry, only
indices 0-2, 4-6, 8-10 are read, matching the slices [0:3], [4:7],
[8:11]), the volume(s), the transfer function where used, the image
size, the buffer, and the `self.interactive_mode` flag.  `clear_image`
(`self.image.fill(0)`) is `clearFB`; the framework passes `self.image`
as the `image` argument, so clearing acts on the same buffer.
-/

/-- TFColor: an RGBA color, components as exact rationals. -/
structure TFColor where
  r : ℚ
  g : ℚ
  b : ℚ
  a : ℚ
deriving DecidableEq

/-- Volume: dimensions, voxel data (`volume.data[x, y, z]`), and the value
returned by `volume.get_maximum()`. -/
structure Volume where
  dim_x : ℕ
  dim_y : ℕ
  dim_z : ℕ
  data : ℤ → ℤ → ℤ → ℚ
  maximum : ℚ

/-- FrameBuffer: a flat byte array of length `size`; `data` gives the byte
at each index (only indices below `size` are meaningful). -/
@[ext]
structure FrameBuffer where
  size : ℕ
  data : ℕ → ℤ

/-- Python `range(start, stop, step)` over ℤ (empty when `step = 0`;
the real Python raises in that case, but the program only ever passes
nonzero literal steps). -/
def pyRange (start stop step : ℤ) : List ℤ :=
  if 0 < step then
    (List.range (((stop - start).toNat + step.toNat - 1) / step.toNat)).map
      (fun m : ℕ => start + step * m)
  else if step < 0 then
    (List.range (((start - stop).toNat + (-step).toNat - 1) / (-step).toNat)).map
      (fun m : ℕ => start + step * m)
  else []

/-- Python `range(0, stop, step)` over ℕ (as used for the pixel loops). -/
def pyRangeNat (stop step : ℕ) : List ℕ :=
  (List.range ((stop + step - 1) / step)).map (fun m => m * step)

/-- get_voxel: trilinear reconstruction from src/implementation.py lines
10-64, including the out-of-range guard (line 19) and the exact weight
expression of lines 57-64 (whose middle four products pair the beta
factor with the z offset and the gamma factor with the y offset, exactly
as written in the source). -/
def get_voxel (volume : Volume) (x y z : ℚ) : ℚ :=
  if x < 0 ∨ y < 0 ∨ z < 0 ∨ x ≥ (volume.dim_x : ℚ) - 1 ∨
      y ≥ (volume.dim_y : ℚ) - 1 ∨ z ≥ (volume.dim_z : ℚ) - 1 then 0
  else
    let x0 := ⌊x⌋
    let y0 := ⌊y⌋
    let z0 := ⌊z⌋
    let x1 := ⌈x⌉
    let y1 := ⌈y⌉
    let z1 := ⌈z⌉
    let v0 := volume.data x0 y0 z0
    let v1 := volume.data x1 y0 z0
    let v2 := volume.data x0 y0 z1
    let v3 := volume.data x1 y0 z1
    let v4 := volume.data x0 y1 z0
    let v5 := volume.data x1 y1 z0
    let v6 := volume.data x0 y1 z1
    let v7 := volume.data x1 y1 z1
    let alpha := x - x0
    let beta := y - y0
    let gamma := z - z0
    (1-alpha)*(1-beta)*(1-gamma)*v0 +
      alpha*(1-beta)*(1-gamma)*v1 +
      (1-alpha)*beta*(1-gamma)*v2 +
      alpha*beta*(1-gamma)*v3 +
      (1-alpha)*(1-beta)*gamma*v4 +
      alpha*(1-beta)*gamma*v5 +
      (1-alpha)*beta*gamma*v6 +
      alpha*beta*gamma*v7

/-- pyRound: Python `round` (round half to even) on an exact rational. -/
def pyRound (q : ℚ) : ℤ :=
  let f := ⌊q⌋
  if q - f < 1/2 then f
  else if (1:ℚ)/2 < q - f then f + 1
  else if f % 2 = 0 then f else f + 1

/-- channelByte: the channel conversion `math.floor(c * 255) if c < 255
else 255` shared verbatim by all four render modes. -/
def channelByte (c : ℚ) : ℤ :=
  if c < 255 then ⌊c * 255⌋ else 255

/-- sel: pick channel `c` (0=red, 1=green, 2=blue, 3=alpha) out of a
4-tuple of bytes. -/
def sel (c : ℕ) (px : ℤ × ℤ × ℤ × ℤ) : ℤ :=
  if c = 0 then px.1 else if c = 1 then px.2.1 else if c = 2 then px.2.2.1 else px.2.2.2

/-- clearFB: `self.image.fill(0)`. -/
def clearFB (image : FrameBuffer) : FrameBuffer :=
  FrameBuffer.mk image.size (fun _ => 0)

/-- writeByte: `image[idx] = v` on a buffer of fixed length `sz`
(a numpy assignment never changes the array length); a numpy index
error is `none`. -/
def writeByte (sz : ℕ) (d : ℕ → ℤ) (idx : ℕ) (v : ℤ) : Option (ℕ → ℤ) :=
  if idx < sz then some (Function.update d idx v) else none

/-- writePixel: the four consecutive byte stores
`image[(j*S+i)*4 + 0..3] = red, green, blue, alpha`. -/
def writePixel (sz S i j : ℕ) (px : ℤ × ℤ × ℤ × ℤ) (d : ℕ → ℤ) : Option (ℕ → ℤ) :=
  (writeByte sz d ((j*S+i)*4) px.1).bind fun d1 =>
  (writeByte sz d1 ((j*S+i)*4+1) px.2.1).bind fun d2 =>
  (writeByte sz d2 ((j*S+i)*4+2) px.2.2.1).bind fun d3 =>
  writeByte sz d3 ((j*S+i)*4+3) px.2.2.2

/-- renderLoop: the shared driver of all four modes: clear the image,
then `for i in range(0, S, step): for j in range(0, S, step):` compute
the pixel and store its four bytes.  A pixel that raises (compositing
with an empty depth loop) or a store outside the buffer aborts the
render with `none`. -/
def renderLoop (S step : ℕ) (pix : ℕ → ℕ → Option (ℤ × ℤ × ℤ × ℤ))
    (image : FrameBuffer) : Option FrameBuffer :=
  ((pyRangeNat S step).foldlM
    (fun d i =>
      (pyRangeNat S step).foldlM
        (fun d2 j => (pix i j).bind (fun px => writePixel image.size S i j px d2)) d)
    (clearFB image).data).map (FrameBuffer.mk image.size)

/-- slicerCoords: the three voxel-coordinate expressions of
render_slicer (lines 101-110): no depth term, image center `S/2`,
volume center `(dim_x/2, dim_y/2, dim_z/2)`. -/
def slicerCoords (view : ℕ → ℚ) (volume : Volume) (S i j : ℕ) : ℚ × ℚ × ℚ :=
  let image_center : ℚ := (S : ℚ) / 2
  (view 0 * (i - image_center) + view 4 * (j - image_center) + (volume.dim_x : ℚ) / 2,
   view 1 * (i - image_center) + view 5 * (j - image_center) + (volume.dim_y : ℚ) / 2,
   view 2 * (i - image_center) + view 6 * (j - image_center) + (volume.dim_z : ℚ) / 2)

/-- rayCoords: the three voxel-coordinate expressions of the depth loops
(render_mip lines 161-170 and the corresponding lines of
render_compositing / visualize_annotations_only): the slicer expression
plus `view_vector * k`.  The volume argument only supplies the center. -/
def rayCoords (view : ℕ → ℚ) (volume : Volume) (S i j : ℕ) (k : ℤ) : ℚ × ℚ × ℚ :=
  let image_center : ℚ := (S : ℚ) / 2
  (view 0 * (i - image_center) + view 4 * (j - image_center) + view 8 * k + (volume.dim_x : ℚ) / 2,
   view 1 * (i - image_center) + view 5 * (j - image_center) + view 9 * k + (volume.dim_y : ℚ) / 2,
   view 2 * (i - image_center) + view 6 * (j - image_center) + view 10 * k + (volume.dim_z : ℚ) / 2)

/-- grayscaleBytes: the normalization and conversion block shared
verbatim by render_slicer (lines 116-125) and render_mip (lines
177-186): normalize by the volume maximum, replicate into R,G,B, binary
alpha, then convert every channel with `channelByte`. -/
def grayscaleBytes (value maximum : ℚ) : ℤ × ℤ × ℤ × ℤ :=
  let red := value / maximum
  let green := red
  let blue := red
  let alpha : ℚ := if red > 0 then 1 else 0
  (channelByte red, channelByte green, channelByte blue, channelByte alpha)

/-- slicerPixel: the loop body of render_slicer for pixel (i, j). -/
def slicerPixel (view : ℕ → ℚ) (volume : Volume) (S i j : ℕ) : ℤ × ℤ × ℤ × ℤ :=
  let p := slicerCoords view volume S i j
  grayscaleBytes (get_voxel volume p.1 p.2.1 p.2.2) volume.maximum

/-- render_slicer: src/implementation.py lines 75-131. -/
def render_slicer (view : ℕ → ℚ) (volume : Volume) (image_size : ℕ)
    (image : FrameBuffer) (interactive : Bool) : Option FrameBuffer :=
  renderLoop image_size (if interactive then 10 else 1)
    (fun i j => some (slicerPixel view volume image_size i j)) image

/-- halfDiagonal: `math.floor(math.sqrt(dim_x**2 + dim_y**2 + dim_z**2) / 2)`
(lines 150, 208, 299).  For a natural number n,
`math.floor(math.sqrt n) = Nat.sqrt n` and flooring a half of a real
equals halving its floor, so this is `Nat.sqrt (...) / 2` in ℕ. -/
def halfDiagonal (volume : Volume) : ℕ :=
  Nat.sqrt (volume.dim_x ^ 2 + volume.dim_y ^ 2 + volume.dim_z ^ 2) / 2

/-- mipDepths: the depth iterator of render_mip,
`range(-diagonal, diagonal, 2)` (line 159). -/
def mipDepths (volume : Volume) : List ℤ :=
  pyRange (-(halfDiagonal volume : ℤ)) (halfDiagonal volume) 2

/-- mipPixel: the loop body of render_mip for pixel (i, j): running
maximum (`value = tmp if value < tmp else value`) over the sampled
depths, starting from 0, then the shared grayscale conversion. -/
def mipPixel (view : ℕ → ℚ) (volume : Volume) (S i j : ℕ) : ℤ × ℤ × ℤ × ℤ :=
  let value := (mipDepths volume).foldl
    (fun value k =>
      let p := rayCoords view volume S i j k
      let tmp := get_voxel volume p.1 p.2.1 p.2.2
      if value < tmp then tmp else value) 0
  grayscaleBytes value volume.maximum

/-- render_mip: src/implementation.py lines 133-192. -/
def render_mip (view : ℕ → ℚ) (volume : Volume) (image_size : ℕ)
    (image : FrameBuffer) (interactive : Bool) : Option FrameBuffer :=
  renderLoop image_size (if interactive then 10 else 1)
    (fun i j => some (mipPixel view volume image_size i j)) image

/-- compositeStep: one iteration of the compositing accumulation
(render_compositing lines 235-244): premultiply the base color by its
own alpha; on the first sample keep it, afterwards blend under the
previously accumulated color with the blended alpha forced to 1.
visualize_annotations_only (lines 317-325) contains the identical
formula and is embedded with the same function. -/
def compositeStep (last : Option TFColor) (base : TFColor) : TFColor :=
  let voxel := TFColor.mk (base.r * base.a) (base.g * base.a) (base.b * base.a) base.a
  match last with
  | none => voxel
  | some l =>
      TFColor.mk (voxel.r + (1 - voxel.a) * l.r) (voxel.g + (1 - voxel.a) * l.g)
        (voxel.b + (1 - voxel.a) * l.b) 1

/-- compositeRay: the whole per-ray accumulation over the processed
sample colors in processing order (back to front; the last list entry is
the frontmost sample).  `none` means the loop body never ran. -/
def compositeRay (colors : List TFColor) : Option TFColor :=
  colors.foldl (fun last base => some (compositeStep last base)) none

/-- compositingPixel: the loop body of render_compositing for pixel
(i, j).  Result `none` embeds the `AttributeError` the source raises at
line 247 (`last_color.r` with `last_color = None`) when the depth range
`range(diagonal, -diagonal, -2)` is empty. -/
def compositingPixel (view : ℕ → ℚ) (volume : Volume) (tfunc : ℤ → TFColor)
    (S i j : ℕ) : Option (ℤ × ℤ × ℤ × ℤ) :=
  let depths := pyRange (halfDiagonal volume) (-(halfDiagonal volume : ℤ)) (-2)
  match compositeRay (depths.map (fun k =>
      let p := rayCoords view volume S i j k
      tfunc (pyRound (get_voxel volume p.1 p.2.1 p.2.2)))) with
  | none => none
  | some lc =>
      let red := lc.r
      let green := lc.g
      let blue := lc.b
      let alpha := if red > 0 ∧ green > 0 ∧ blue > 0 then lc.a else 0
      some (channelByte red, channelByte green, channelByte blue, channelByte alpha)

/-- render_compositing: src/implementation.py lines 194-262. -/
def render_compositing (view : ℕ → ℚ) (volume : Volume) (tfunc : ℤ → TFColor)
    (image_size : ℕ) (image : FrameBuffer) (interactive : Bool) : Option FrameBuffer :=
  renderLoop image_size (if interactive then 10 else 1)
    (compositingPixel view volume tfunc image_size) image

/-- annotationPixel: the loop body of visualize_annotations_only for
pixel (i, j): depth loop `range(half_diagonal, -half_diagonal,
-precision)` over the annotation volume geometry, samples drawn from the
magnitude volume, zero-valued samples skipped entirely, and a
fully-transparent-black pixel when no sample contributed. -/
def annotationPixel (view : ℕ → ℚ) (annotation_volume magnitude_volume : Volume)
    (tfunc : ℤ → TFColor) (precision : ℕ) (S i j : ℕ) : ℤ × ℤ × ℤ × ℤ :=
  let depths := pyRange (halfDiagonal annotation_volume)
    (-(halfDiagonal annotation_volume : ℤ)) (-(precision : ℤ))
  let last := depths.foldl
    (fun last k =>
      let p := rayCoords view annotation_volume S i j k
      let value := get_voxel magnitude_volume p.1 p.2.1 p.2.2
      if value ≠ 0 then some (compositeStep last (tfunc (pyRound value))) else last)
    none
  match last with
  | none =>
      (channelByte 0, channelByte 0, channelByte 0, channelByte 0)
  | some lc =>
      let red := lc.r
      let green := lc.g
      let blue := lc.b
      let alpha := if red > 0 ∧ green > 0 ∧ blue > 0 then lc.a else 0
      (channelByte red, channelByte green, channelByte blue, channelByte alpha)

/-- visualize_annotations_only: src/implementation.py lines 285-349 (the
unused `csv_colors` flag is kept for signature fidelity). -/
def visualize_annotations_only (view : ℕ → ℚ) (annotation_volume magnitude_volume : Volume)
    (tfunc : ℤ → TFColor) (image_size : ℕ) (image : FrameBuffer)
    (interactive : Bool) (csv_colors : Bool) (precision : ℕ) : Option FrameBuffer :=
  renderLoop image_size (if interactive then 20 else 1)
    (fun i j => some (annotationPixel view annotation_volume magnitude_volume
      tfunc precision image_size i j)) image

/-- inRange: the in-range region of the voxel sampler on a given volume,
`0 ≤ x < dim_x - 1` and likewise for y, z (the negation of the guard at
line 19). -/
def inRange (volume : Volume) (x y z : ℚ) : Prop :=
  0 ≤ x ∧ x < (volume.dim_x : ℚ) - 1 ∧ 0 ≤ y ∧ y < (volume.dim_y : ℚ) - 1 ∧
    0 ≤ z ∧ z < (volume.dim_z : ℚ) - 1

instance (volume : Volume) (x y z : ℚ) : Decidable (inRange volume x y z) := by
  unfold inRange; infer_instance

/-- trilinear_spec: the standard trilinear weighted sum demanded by the
specification (spec section 4.1): each of the 8 floor/ceil lattice
neighbors is weighted by the product, per axis, of `1 - fraction` for
the lower neighbor and `fraction` for the upper neighbor, with
alpha = x - x0, beta = y - y0, gamma = z - z0.  Stated from the spec
wording, to be compared with `get_voxel`. -/
def trilinear_spec (volume : Volume) (x y z : ℚ) : ℚ :=
  if x < 0 ∨ y < 0 ∨ z < 0 ∨ x ≥ (volume.dim_x : ℚ) - 1 ∨
      y ≥ (volume.dim_y : ℚ) - 1 ∨ z ≥ (volume.dim_z : ℚ) - 1 then 0
  else
    let alpha := x - ⌊x⌋
    let beta := y - ⌊y⌋
    let gamma := z - ⌊z⌋
    ∑ t : Fin 2 × Fin 2 × Fin 2,
      (if t.1 = 0 then 1 - alpha else alpha) *
        (if t.2.1 = 0 then 1 - beta else beta) *
        (if t.2.2 = 0 then 1 - gamma else gamma) *
        volume.data (if t.1 = 0 then ⌊x⌋ else ⌈x⌉)
          (if t.2.1 = 0 then ⌊y⌋ else ⌈y⌉)
          (if t.2.2 = 0 then ⌊z⌋ else ⌈z⌉)

/-- specMipValue: the per-pixel MIP reduction stated from the (amended)
spec wording: the maximum, starting from 0, of the voxel samples taken
at the iterated depths. -/
def specMipValue (view : ℕ → ℚ) (volume : Volume) (S i j : ℕ) : ℚ :=
  ((mipDepths volume).map (fun k =>
    let p := rayCoords view volume S i j k
    get_voxel volume p.1 p.2.1 p.2.2)).foldl max 0

/-- rowFold: the inner `for j` loop of `renderLoop`, generalized over the
list of column indices (proof device; `renderLoop` unfolds to it). -/
def rowFold (sz S : ℕ) (pix : ℕ → ℕ → Option (ℤ × ℤ × ℤ × ℤ)) (i : ℕ)
    (jl : List ℕ) (d : ℕ → ℤ) : Option (ℕ → ℤ) :=
  jl.foldlM (fun d2 j => (pix i j).bind (fun px => writePixel sz S i j px d2)) d

/-- gridFold: the nested pixel loops of `renderLoop`, generalized over
both index lists. -/
def gridFold (sz S : ℕ) (pix : ℕ → ℕ → Option (ℤ × ℤ × ℤ × ℤ))
    (il jl : List ℕ) (d : ℕ → ℤ) : Option (ℕ → ℤ) :=
  il.foldlM (fun d i => rowFold sz S pix i jl d) d

lemma renderLoop_eq_gridFold (S step : ℕ) (pix : ℕ → ℕ → Option (ℤ × ℤ × ℤ × ℤ))
    (image : FrameBuffer) :
    renderLoop S step pix image
      = (gridFold image.size S pix (pyRangeNat S step) (pyRangeNat S step)
          (clearFB image).data).map (FrameBuffer.mk image.size) := rfl

lemma mem_pyRangeNat_lt {S step m : ℕ} (h : m ∈ pyRangeNat S step) : m < S := by
  rcases List.mem_map.mp h with ⟨q, hq, rfl⟩
  rcases Nat.eq_zero_or_pos step with hstep | hstep
  · subst hstep
    simp [Nat.div_zero] at hq
  · have hq' : q + 1 ≤ (S + step - 1) / step := List.mem_range.mp hq
    have := (Nat.le_div_iff_mul_le hstep).mp hq'
    have hmul : (q + 1) * step = q * step + step := by ring
    omega

lemma pyRangeNat_one (S : ℕ) : pyRangeNat S 1 = List.range S := by
  simp [pyRangeNat]

lemma mem_pyRangeNat_one {S m : ℕ} (h : m < S) : m ∈ pyRangeNat S 1 := by
  rw [pyRangeNat_one]; exact List.mem_range.mpr h

lemma writeByte_lt {sz idx : ℕ} (d : ℕ → ℤ) (v : ℤ) (h : idx < sz) :
    writeByte sz d idx v = some (Function.update d idx v) := by
  rw [writeByte, if_pos h]

lemma writeByte_ge {sz idx : ℕ} (d : ℕ → ℤ) (v : ℤ) (h : sz ≤ idx) :
    writeByte sz d idx v = none := by
  rw [writeByte, if_neg (not_lt.mpr h)]

/-- update4: the byte map after the four stores of one pixel with flat
pixel index q. -/
def update4 (d : ℕ → ℤ) (q : ℕ) (px : ℤ × ℤ × ℤ × ℤ) : ℕ → ℤ :=
  Function.update (Function.update (Function.update (Function.update d
    (q*4) px.1) (q*4+1) px.2.1) (q*4+2) px.2.2.1) (q*4+3) px.2.2.2

lemma writePixel_eq_ite (sz S i j : ℕ) (px : ℤ × ℤ × ℤ × ℤ) (d : ℕ → ℤ) :
    writePixel sz S i j px d
      = if (j*S+i)*4+3 < sz then some (update4 d (j*S+i) px) else none := by
  by_cases h : (j*S+i)*4+3 < sz
  · rw [if_pos h, writePixel]
    rw [writeByte_lt d px.1 (by omega)]
    simp only [Option.some_bind]
    rw [writeByte_lt _ px.2.1 (by omega)]
    simp only [Option.some_bind]
    rw [writeByte_lt _ px.2.2.1 (by omega)]
    simp only [Option.some_bind]
    rw [writeByte_lt _ px.2.2.2 (by omega)]
    rfl
  · rw [if_neg h, writePixel]
    by_cases h0 : (j*S+i)*4 < sz
    · rw [writeByte_lt d px.1 h0]
      simp only [Option.some_bind]
      by_cases h1 : (j*S+i)*4+1 < sz
      · rw [writeByte_lt _ px.2.1 h1]
        simp only [Option.some_bind]
        by_cases h2 : (j*S+i)*4+2 < sz
        · rw [writeByte_lt _ px.2.2.1 h2]
          simp only [Option.some_bind]
          exact writeByte_ge _ px.2.2.2 (by omega)
        · rw [writeByte_ge _ px.2.2.1 (by omega)]; rfl
      · rw [writeByte_ge _ px.2.1 (by omega)]; rfl
    · rw [writeByte_ge d px.1 (by omega)]; rfl

lemma update4_at {d : ℕ → ℤ} {q : ℕ} {px : ℤ × ℤ × ℤ × ℤ} {c : ℕ} (hc : c < 4) :
    update4 d q px (q*4+c) = sel c px := by
  interval_cases c <;>
    simp only [update4, sel, Function.update_apply] <;>
    norm_num

lemma update4_frame {d : ℕ → ℤ} {q : ℕ} {px : ℤ × ℤ × ℤ × ℤ} {m : ℕ}
    (hm : m / 4 ≠ q) : update4 d q px m = d m := by
  have h0 : m ≠ q*4 := by omega
  have h1 : m ≠ q*4+1 := by omega
  have h2 : m ≠ q*4+2 := by omega
  have h3 : m ≠ q*4+3 := by omega
  simp only [update4, Function.update_apply, if_neg h0, if_neg h1, if_neg h2, if_neg h3]

lemma pixIndex_lt {S i j : ℕ} (hi : i < S) (hj : j < S) : j*S+i < S*S := by
  have h1 : (j+1)*S = j*S + S := by ring
  have h2 : (j+1)*S ≤ S*S := Nat.mul_le_mul_right S hj
  omega

lemma pixIndex_inj {S i j i2 j2 : ℕ} (hi : i < S) (hi2 : i2 < S)
    (h : j*S+i = j2*S+i2) : i = i2 ∧ j = j2 := by
  have hS : 0 < S := by omega
  have hmod : (j*S+i) % S = i := by
    rw [Nat.add_comm, Nat.add_mul_mod_self_right]
    exact Nat.mod_eq_of_lt hi
  have hmod2 : (j2*S+i2) % S = i2 := by
    rw [Nat.add_comm, Nat.add_mul_mod_self_right]
    exact Nat.mod_eq_of_lt hi2
  have hdiv : (j*S+i) / S = j := by
    rw [Nat.add_comm, Nat.add_mul_div_right i j hS, Nat.div_eq_of_lt hi, Nat.zero_add]
  have hdiv2 : (j2*S+i2) / S = j2 := by
    rw [Nat.add_comm, Nat.add_mul_div_right i2 j2 hS, Nat.div_eq_of_lt hi2, Nat.zero_add]
  constructor
  · rw [← hmod, ← hmod2, h]
  · rw [← hdiv, ← hdiv2, h]

lemma rowFold_spec (sz S : ℕ) (pix : ℕ → ℕ → Option (ℤ × ℤ × ℤ × ℤ)) (i : ℕ)
    (jl : List ℕ) (d : ℕ → ℤ) (hsz : 4*(S*S) ≤ sz) (hi : i < S)
    (hjl : ∀ j ∈ jl, j < S) (hsome : ∀ j ∈ jl, (pix i j).isSome) :
    ∃ e, rowFold sz S pix i jl d = some e ∧
      (∀ m, (∀ j ∈ jl, m / 4 ≠ j*S+i) → e m = d m) ∧
      (∀ j c px, j < S → c < 4 → pix i j = some px →
        e ((j*S+i)*4+c) = if j ∈ jl then sel c px else d ((j*S+i)*4+c)) := by
  induction jl generalizing d with
  | nil =>
      refine ⟨d, rfl, fun m _ => rfl, fun j c px _ _ _ => ?_⟩
      simp
  | cons j0 t ih =>
      obtain ⟨px0, hpx0⟩ := Option.isSome_iff_exists.mp (hsome j0 (by simp))
      have hj0 : j0 < S := hjl j0 (by simp)
      have hofs : (j0*S+i)*4+3 < sz := by
        have := pixIndex_lt hi hj0
        omega
      have hstep : writePixel sz S i j0 px0 d = some (update4 d (j0*S+i) px0) := by
        rw [writePixel_eq_ite, if_pos hofs]
      obtain ⟨e, he, hframe, hbyte⟩ :=
        ih (update4 d (j0*S+i) px0) (fun j hj => hjl j (by simp [hj]))
          (fun j hj => hsome j (by simp [hj]))
      refine ⟨e, ?_, ?_, ?_⟩
      · rw [rowFold, List.foldlM_cons, hpx0]
        simp only [Option.some_bind, hstep]
        exact he
      · intro m hm
        rw [hframe m (fun j hj => hm j (by simp [hj]))]
        exact update4_frame (hm j0 (by simp))
      · intro j c px hjS hc hpx
        rw [hbyte j c px hjS hc hpx]
        by_cases hjt : j ∈ t
        · simp [hjt]
        · by_cases hjj0 : j = j0
          · subst hjj0
            have hpp : px0 = px := by
              rw [hpx] at hpx0
              exact (Option.some.inj hpx0).symm
            subst hpp
            rw [if_neg hjt, if_pos (List.mem_cons_self j t)]
            exact update4_at hc
          · have hne : (j*S+i) ≠ (j0*S+i) := by
              intro hEq
              exact hjj0 (pixIndex_inj hi hi hEq).2
            rw [if_neg hjt, update4_frame (by omega),
              if_neg (by simp [hjj0, hjt])]

lemma gridFold_spec (sz S : ℕ) (pix : ℕ → ℕ → Option (ℤ × ℤ × ℤ × ℤ))
    (il jl : List ℕ) (d : ℕ → ℤ) (hsz : 4*(S*S) ≤ sz)
    (hil : ∀ i ∈ il, i < S) (hjl : ∀ j ∈ jl, j < S)
    (hsome : ∀ i ∈ il, ∀ j ∈ jl, (pix i j).isSome) :
    ∃ e, gridFold sz S pix il jl d = some e ∧
      (∀ m, (∀ i ∈ il, ∀ j ∈ jl, m / 4 ≠ j*S+i) → e m = d m) ∧
      (∀ i j c px, i < S → j < S → c < 4 → pix i j = some px →
        e ((j*S+i)*4+c) = if i ∈ il ∧ j ∈ jl then sel c px else d ((j*S+i)*4+c)) := by
  induction il generalizing d with
  | nil =>
      refine ⟨d, rfl, fun m _ => rfl, fun i j c px _ _ _ _ => ?_⟩
      rw [if_neg (fun hcon => List.not_mem_nil i hcon.1)]
  | cons i0 t ih =>
      have hi0 : i0 < S := hil i0 (by simp)
      obtain ⟨e1, he1, hframe1, hbyte1⟩ :=
        rowFold_spec sz S pix i0 jl d hsz hi0 hjl (hsome i0 (by simp))
      obtain ⟨e, he, hframe, hbyte⟩ :=
        ih e1 (fun i hi => hil i (by simp [hi]))
          (fun i hi => hsome i (by simp [hi]))
      refine ⟨e, ?_, ?_, ?_⟩
      · rw [gridFold, List.foldlM_cons, he1]
        exact he
      · intro m hm
        rw [hframe m (fun i hi => hm i (by simp [hi]))]
        exact hframe1 m (hm i0 (by simp))
      · intro i j c px hiS hjS hc hpx
        rw [hbyte i j c px hiS hjS hc hpx]
        by_cases hit : i ∈ t ∧ j ∈ jl
        · rw [if_pos hit, if_pos ⟨List.mem_cons_of_mem i0 hit.1, hit.2⟩]
        · rw [if_neg hit]
          by_cases hii0 : i = i0
          · subst hii0
            rw [hbyte1 j c px hjS hc hpx]
            by_cases hjjl : j ∈ jl
            · rw [if_pos hjjl, if_pos ⟨List.mem_cons_self i t, hjjl⟩]
            · rw [if_neg hjjl, if_neg (fun hcon => hjjl hcon.2)]
          · have hfr : e1 ((j*S+i)*4+c) = d ((j*S+i)*4+c) := by
              apply hframe1
              intro j2 hj2 hEq
              have hq : ((j*S+i)*4+c)/4 = j*S+i := by omega
              rw [hq] at hEq
              exact hii0 (pixIndex_inj hiS hi0 hEq).1
            rw [hfr]
            have hnotin : ¬(i ∈ i0 :: t ∧ j ∈ jl) := by
              intro hcon
              rcases List.mem_cons.mp hcon.1 with h | h
              · exact hii0 h
              · exact hit ⟨h, hcon.2⟩
            rw [if_neg hnotin]

lemma rowFold_none (sz S : ℕ) (pix : ℕ → ℕ → Option (ℤ × ℤ × ℤ × ℤ)) (i : ℕ)
    (jl : List ℕ) (d : ℕ → ℤ) (j0 : ℕ) (hj : j0 ∈ jl)
    (hoob : sz ≤ (j0*S+i)*4+3) : rowFold sz S pix i jl d = none := by
  induction jl generalizing d with
  | nil => cases hj
  | cons j t ih =>
      rw [rowFold, List.foldlM_cons]
      rcases hstep : (pix i j).bind (fun px => writePixel sz S i j px d) with _ | d'
      · rfl
      · rcases Option.bind_eq_some.mp hstep with ⟨px, hpx, hwr⟩
        rw [writePixel_eq_ite] at hwr
        split at hwr
        · rcases List.mem_cons.mp hj with hj0 | hj0
          · subst hj0
            omega
          · exact ih d' hj0
        · cases hwr

lemma gridFold_none (sz S : ℕ) (pix : ℕ → ℕ → Option (ℤ × ℤ × ℤ × ℤ))
    (il jl : List ℕ) (d : ℕ → ℤ) (i0 j0 : ℕ) (hi : i0 ∈ il) (hj : j0 ∈ jl)
    (hoob : sz ≤ (j0*S+i0)*4+3) : gridFold sz S pix il jl d = none := by
  induction il generalizing d with
  | nil => cases hi
  | cons i t ih =>
      rw [gridFold, List.foldlM_cons]
      rcases List.mem_cons.mp hi with hi0 | hi0
      · rw [rowFold_none sz S pix i jl d j0 hj (hi0 ▸ hoob)]
        rfl
      · rcases hrow : rowFold sz S pix i jl d with _ | d'
        · rfl
        · exact ih d' hi0

lemma mem_pyRange_pos {start stop step : ℤ} (hst : 0 < step) (k : ℤ) :
    k ∈ pyRange start stop step ↔
      start ≤ k ∧ k < stop ∧ step ∣ (k - start) := by
  have hT : 0 < step.toNat := by omega
  constructor
  · intro h
    rw [pyRange, if_pos hst] at h
    obtain ⟨m, hm0, rfl⟩ := List.mem_map.mp h
    have hm : m < ((stop - start).toNat + step.toNat - 1) / step.toNat :=
      List.mem_range.mp hm0
    have hm2 : m + 1 ≤ ((stop - start).toNat + step.toNat - 1) / step.toNat := hm
    have h2 := (Nat.le_div_iff_mul_le hT).mp hm2
    have h3 : (m + 1) * step.toNat = m * step.toNat + step.toNat := Nat.succ_mul m step.toNat
    have hmT : m * step.toNat < (stop - start).toNat := by omega
    have hcast : ((m * step.toNat : ℕ) : ℤ) = step * m := by
      push_cast
      rw [Int.toNat_of_nonneg hst.le]
      ring
    have h5 : ((m * step.toNat : ℕ) : ℤ) < (((stop - start).toNat : ℕ) : ℤ) := by
      exact_mod_cast hmT
    rw [hcast] at h5
    have hmn : 0 ≤ step * m := mul_nonneg hst.le (by positivity)
    refine ⟨by omega, by omega, ⟨m, by ring⟩⟩
  · rintro ⟨h1, h2, m', hm'⟩
    rw [pyRange, if_pos hst]
    apply List.mem_map.mpr
    have hm'0 : 0 ≤ m' := by
      by_contra hneg
      push_neg at hneg
      have hle : step * m' ≤ step * (-1) :=
        mul_le_mul_of_nonneg_left (by omega) hst.le
      have : step * (-1) = -step := by ring
      omega
    have hval : ((m'.toNat : ℕ) : ℤ) = m' := Int.toNat_of_nonneg hm'0
    have hb : step * m' < stop - start := by omega
    have hbn : m'.toNat * step.toNat < (stop - start).toNat := by
      have hcast : ((m'.toNat * step.toNat : ℕ) : ℤ) = step * m' := by
        push_cast
        rw [Int.toNat_of_nonneg hst.le, hval]
        ring
      omega
    refine ⟨m'.toNat, List.mem_range.mpr ?_, ?_⟩
    · have h3 : (m'.toNat + 1) * step.toNat = m'.toNat * step.toNat + step.toNat :=
        Nat.succ_mul m'.toNat step.toNat
      have h6 : (m'.toNat + 1) * step.toNat ≤ (stop - start).toNat + step.toNat - 1 := by
        omega
      have h5 := (Nat.le_div_iff_mul_le hT).mpr h6
      omega
    · rw [hval]
      omega

lemma if_lt_eq_max (v t : ℚ) : (if v < t then t else v) = max v t := by
  rcases le_or_lt t v with h | h
  · rw [if_neg (not_lt.mpr h), max_eq_left h]
  · rw [if_pos h, max_eq_right h.le]

/-- mipPixel factors through the spec-side maximum of the sampled
values. -/
lemma mipPixel_spec (view : ℕ → ℚ) (volume : Volume) (S i j : ℕ) :
    mipPixel view volume S i j
      = grayscaleBytes (specMipValue view volume S i j) volume.maximum := by
  rw [mipPixel, specMipValue, List.foldl_map]
  have hfun : (fun (value : ℚ) (k : ℤ) =>
      let p := rayCoords view volume S i j k
      let tmp := get_voxel volume p.1 p.2.1 p.2.2
      if value < tmp then tmp else value)
      = fun (value : ℚ) (k : ℤ) =>
          max value
            (let p := rayCoords view volume S i j k
             get_voxel volume p.1 p.2.1 p.2.2) := by
    funext v k
    exact if_lt_eq_max _ _
  rw [hfun]

lemma not_guard_of_inRange {volume : Volume} {x y z : ℚ}
    (h : inRange volume x y z) :
    ¬(x < 0 ∨ y < 0 ∨ z < 0 ∨ x ≥ (volume.dim_x : ℚ) - 1 ∨
      y ≥ (volume.dim_y : ℚ) - 1 ∨ z ≥ (volume.dim_z : ℚ) - 1) := by
  obtain ⟨h1, h2, h3, h4, h5, h6⟩ := h
  push_neg
  exact ⟨h1, h3, h5, h2, h4, h6⟩

lemma guard_of_not_inRange {volume : Volume} {x y z : ℚ}
    (h : ¬ inRange volume x y z) :
    x < 0 ∨ y < 0 ∨ z < 0 ∨ x ≥ (volume.dim_x : ℚ) - 1 ∨
      y ≥ (volume.dim_y : ℚ) - 1 ∨ z ≥ (volume.dim_z : ℚ) - 1 := by
  by_contra hg
  push_neg at hg
  exact h ⟨hg.1, hg.2.2.2.1, hg.2.1, hg.2.2.2.2.1, hg.2.2.1, hg.2.2.2.2.2⟩

/-- On a constant-valued volume the sampler returns the constant at every
in-range point (the weights sum to 1). -/
lemma get_voxel_const {volume : Volume} {q : ℚ}
    (hdata : ∀ x y z, volume.data x y z = q) {x y z : ℚ}
    (h : inRange volume x y z) : get_voxel volume x y z = q := by
  rw [get_voxel, if_neg (not_guard_of_inRange h)]
  simp only [hdata]
  ring

/-- On a constant-valued volume every sample is the constant or 0. -/
lemma get_voxel_const_cases {volume : Volume} {q : ℚ}
    (hdata : ∀ x y z, volume.data x y z = q) (x y z : ℚ) :
    get_voxel volume x y z = q ∨ get_voxel volume x y z = 0 := by
  by_cases h : inRange volume x y z
  · exact Or.inl (get_voxel_const hdata h)
  · right
    rw [get_voxel, if_pos (guard_of_not_inRange h)]

/-- On an everywhere-zero volume the sampler returns 0 everywhere. -/
lemma get_voxel_zero {volume : Volume}
    (hdata : ∀ x y z, volume.data x y z = 0) (x y z : ℚ) :
    get_voxel volume x y z = 0 := by
  rcases get_voxel_const_cases hdata x y z with h | h <;> exact h

lemma foldl_max_eq {q : ℚ} (hq : 0 ≤ q) (l : List ℚ)
    (hvals : ∀ x ∈ l, x = q ∨ x = 0) :
    ∀ a, (a = 0 ∨ a = q) → ((∃ x ∈ l, x = q) ∨ a = q) →
      l.foldl max a = q := by
  induction l with
  | nil =>
      intro a _ hex
      rcases hex with ⟨x, hx, _⟩ | h
      · exact absurd hx (List.not_mem_nil x)
      · exact h
  | cons x t ih =>
      intro a ha hex
      rw [List.foldl_cons]
      have hx := hvals x (List.mem_cons_self x t)
      have hmax : max a x = 0 ∨ max a x = q := by
        rcases ha with ha | ha
        · rcases hx with hx | hx
          · rw [ha, hx]
            exact Or.inr (max_eq_right hq)
          · rw [ha, hx]
            exact Or.inl (max_self 0)
        · rcases hx with hx | hx
          · rw [ha, hx]
            exact Or.inr (max_self q)
          · rw [ha, hx]
            exact Or.inr (max_eq_left hq)
      apply ih (fun y hy => hvals y (List.mem_cons_of_mem x hy)) (max a x) hmax
      rcases hex with ⟨y, hy, hyq⟩ | haq
      · rcases List.mem_cons.mp hy with h | h
        · right
          rw [h] at hyq
          rcases ha with ha | ha
          · rw [ha, hyq]
            exact max_eq_right hq
          · rw [ha, hyq]
            exact max_self q
        · exact Or.inl ⟨y, h, hyq⟩
      · right
        rcases hx with hx | hx
        · rw [haq, hx]
          exact max_self q
        · rw [haq, hx]
          exact max_eq_left hq

lemma compositeRay_append_one (colors : List TFColor) (c : TFColor) :
    compositeRay (colors ++ [c])
      = some (compositeStep (compositeRay colors) c) := by
  rw [compositeRay, compositeRay, List.foldl_append, List.foldl_cons, List.foldl_nil]

/-- With a fully opaque sample, one compositing step ignores the
accumulator entirely. -/
lemma compositeStep_opaque (last : Option TFColor) (c : TFColor) (ha : c.a = 1) :
    compositeStep last c = TFColor.mk c.r c.g c.b 1 := by
  cases last with
  | none =>
      simp only [compositeStep, ha, mul_one]
  | some l =>
      simp only [compositeStep, ha, mul_one, sub_self, zero_mul, add_zero]

lemma compositeRay_cons_some (l : List TFColor) :
    ∀ acc : TFColor,
      l.foldl (fun last base => some (compositeStep last base)) (some acc)
        = some (l.foldl (fun last base => compositeStep (some last) base) acc) := by
  induction l with
  | nil => intro acc; rfl
  | cons x t ih =>
      intro acc
      rw [List.foldl_cons, List.foldl_cons]
      exact ih (compositeStep (some acc) x)

lemma compositeRay_isSome (l : List TFColor) (hl : l ≠ []) :
    (compositeRay l).isSome := by
  cases l with
  | nil => exact absurd rfl hl
  | cons x t =>
      rw [compositeRay, List.foldl_cons, compositeRay_cons_some]
      rfl

lemma rowFold_congr (sz S : ℕ) (pix1 pix2 : ℕ → ℕ → Option (ℤ × ℤ × ℤ × ℤ))
    (i : ℕ) (jl : List ℕ) (hi : i < S) (hjl : ∀ j ∈ jl, j < S)
    (h : ∀ a b, a < S → b < S → pix1 a b = pix2 a b) :
    ∀ d, rowFold sz S pix1 i jl d = rowFold sz S pix2 i jl d := by
  induction jl with
  | nil => intro d; rfl
  | cons j t ih =>
      intro d
      rw [rowFold, List.foldlM_cons, rowFold, List.foldlM_cons,
        h i j hi (hjl j (List.mem_cons_self j t))]
      rcases hstep : (pix2 i j).bind (fun px => writePixel sz S i j px d) with _ | d'
      · rfl
      · exact ih (fun b hb => hjl b (List.mem_cons_of_mem j hb)) d'

lemma gridFold_congr (sz S : ℕ) (pix1 pix2 : ℕ → ℕ → Option (ℤ × ℤ × ℤ × ℤ))
    (il jl : List ℕ) (hil : ∀ i ∈ il, i < S) (hjl : ∀ j ∈ jl, j < S)
    (h : ∀ a b, a < S → b < S → pix1 a b = pix2 a b) :
    ∀ d, gridFold sz S pix1 il jl d = gridFold sz S pix2 il jl d := by
  induction il with
  | nil => intro d; rfl
  | cons i t ih =>
      intro d
      rw [gridFold, List.foldlM_cons, gridFold, List.foldlM_cons,
        rowFold_congr sz S pix1 pix2 i jl (hil i (List.mem_cons_self i t)) hjl h d]
      rcases hrow : rowFold sz S pix2 i jl d with _ | d'
      · rfl
      · exact ih (fun a ha => hil a (List.mem_cons_of_mem i ha)) d'

lemma renderLoop_congr (S step : ℕ) (pix1 pix2 : ℕ → ℕ → Option (ℤ × ℤ × ℤ × ℤ))
    (image : FrameBuffer)
    (h : ∀ a b, a < S → b < S → pix1 a b = pix2 a b) :
    renderLoop S step pix1 image = renderLoop S step pix2 image := by
  rw [renderLoop_eq_gridFold, renderLoop_eq_gridFold,
    gridFold_congr image.size S pix1 pix2 (pyRangeNat S step) (pyRangeNat S step)
      (fun a ha => mem_pyRangeNat_lt ha) (fun b hb => mem_pyRangeNat_lt hb) h
      (clearFB image).data]

/-- Reading one written byte out of a full-quality render. -/
lemma renderLoop_byte (S : ℕ) (pix : ℕ → ℕ → Option (ℤ × ℤ × ℤ × ℤ))
    (image : FrameBuffer) (hsz : 4*(S*S) ≤ image.size)
    (hsome : ∀ a b, a < S → b < S → (pix a b).isSome)
    (i j c : ℕ) (hi : i < S) (hj : j < S) (hc : c < 4)
    (px : ℤ × ℤ × ℤ × ℤ) (hpx : pix i j = some px) :
    (renderLoop S 1 pix image).map (fun b => b.data ((j*S+i)*4+c))
      = some (sel c px) := by
  rw [renderLoop_eq_gridFold]
  obtain ⟨e, he, _, hbyte⟩ :=
    gridFold_spec image.size S pix (pyRangeNat S 1) (pyRangeNat S 1)
      (clearFB image).data hsz
      (fun a ha => mem_pyRangeNat_lt ha) (fun b hb => mem_pyRangeNat_lt hb)
      (fun a ha b hb => hsome a b (mem_pyRangeNat_lt ha) (mem_pyRangeNat_lt hb))
  rw [he]
  have hb := hbyte i j c px hi hj hc hpx
  rw [if_pos ⟨mem_pyRangeNat_one hi, mem_pyRangeNat_one hj⟩] at hb
  exact congrArg some hb

/-- A full-quality render faults when the buffer is too short. -/
lemma renderLoop_oob (S : ℕ) (pix : ℕ → ℕ → Option (ℤ × ℤ × ℤ × ℤ))
    (image : FrameBuffer) (hS : 1 ≤ S) (hsz : image.size < 4*(S*S)) :
    renderLoop S 1 pix image = none := by
  rw [renderLoop_eq_gridFold]
  have hmem : S - 1 ∈ pyRangeNat S 1 := mem_pyRangeNat_one (by omega)
  have hsum : (S-1)*S + S = S*S := by
    calc (S-1)*S + S = ((S-1)+1)*S := by ring
    _ = S*S := by rw [Nat.sub_add_cancel hS]
  rw [gridFold_none image.size S pix (pyRangeNat S 1) (pyRangeNat S 1)
    (clearFB image).data (S-1) (S-1) hmem hmem (by omega)]
  rfl

lemma pyRange_down_ne_nil (D : ℕ) (hD : 1 ≤ D) :
    pyRange (D : ℤ) (-(D : ℤ)) (-2) ≠ [] := by
  rw [pyRange, if_neg (by norm_num), if_pos (by norm_num)]
  intro hcon
  rw [List.map_eq_nil_iff, List.range_eq_nil] at hcon
  rw [neg_neg, sub_neg_eq_add] at hcon
  have h2 : Int.toNat 2 = 2 := rfl
  rw [h2] at hcon
  omega

lemma compositingPixel_isSome (view : ℕ → ℚ) (volume : Volume) (tfunc : ℤ → TFColor)
    (S i j : ℕ) (hD : 1 ≤ halfDiagonal volume) :
    ∃ px, compositingPixel view volume tfunc S i j = some px := by
  have hne : (pyRange (halfDiagonal volume) (-(halfDiagonal volume : ℤ)) (-2)).map
      (fun k =>
        let p := rayCoords view volume S i j k
        tfunc (pyRound (get_voxel volume p.1 p.2.1 p.2.2))) ≠ [] := by
    intro hc
    rw [List.map_eq_nil_iff] at hc
    exact pyRange_down_ne_nil _ hD hc
  obtain ⟨lc, hlc⟩ := Option.isSome_iff_exists.mp (compositeRay_isSome _ hne)
  rw [compositingPixel]
  rw [hlc]
  exact ⟨_, rfl⟩

lemma foldl_skip_none {α : Type} (f : Option TFColor → α → Option TFColor) (l : List α)
    (h : ∀ k, f none k = none) : l.foldl f none = none := by
  induction l with
  | nil => rfl
  | cons x t ih =>
      rw [List.foldl_cons, h x]
      exact ih

lemma channelByte_zero : channelByte 0 = 0 := by
  rw [channelByte, if_pos (by norm_num), zero_mul, Int.floor_zero]

/-- With an everywhere-zero magnitude volume every sample is skipped and
the pixel is fully transparent black. -/
lemma annotationPixel_zero (view : ℕ → ℚ) (annotation_volume magnitude_volume : Volume)
    (tfunc : ℤ → TFColor) (precision S i j : ℕ)
    (hmag : ∀ x y z, magnitude_volume.data x y z = 0) :
    annotationPixel view annotation_volume magnitude_volume tfunc precision S i j
      = (0, 0, 0, 0) := by
  have hfold : (pyRange (halfDiagonal annotation_volume)
      (-(halfDiagonal annotation_volume : ℤ)) (-(precision : ℤ))).foldl
      (fun last k =>
        let p := rayCoords view annotation_volume S i j k
        let value := get_voxel magnitude_volume p.1 p.2.1 p.2.2
        if value ≠ 0 then some (compositeStep last (tfunc (pyRound value))) else last)
      none = none := by
    apply foldl_skip_none
    intro k
    simp only [get_voxel_zero hmag]
    rw [if_neg (fun hc => hc rfl)]
  rw [annotationPixel]
  simp only [hfold, channelByte_zero]

lemma floor_half : ⌊(1:ℚ)/2⌋ = 0 := by
  rw [Int.floor_eq_iff] <;> norm_num

lemma ceil_half : ⌈(1:ℚ)/2⌉ = 1 := by
  rw [Int.ceil_eq_iff] <;> norm_num

lemma floor_3half : ⌊(3:ℚ)/2⌋ = 1 := by
  rw [Int.floor_eq_iff] <;> norm_num

lemma ceil_3half : ⌈(3:ℚ)/2⌉ = 2 := by
  rw [Int.ceil_eq_iff] <;> norm_num

/-- idView: the axis-aligned view matrix (identity orientation): u, v,
view are the standard basis vectors. -/
def idView : ℕ → ℚ := fun n => if n = 0 ∨ n = 5 ∨ n = 10 then 1 else 0

/-- onesVol2: a uniform 2x2x2 volume of value 1 (maximum 1). -/
def onesVol2 : Volume := Volume.mk 2 2 2 (fun _ _ _ => 1) 1

/-- onesVol3: a uniform 3x3x3 volume of value 1 (maximum 1). -/
def onesVol3 : Volume := Volume.mk 3 3 3 (fun _ _ _ => 1) 1

/-- zeroVolume: an all-zero 2x2x2 volume. -/
def zeroVolume : Volume := Volume.mk 2 2 2 (fun _ _ _ => 0) 0

/-- volC6: a 2x2x2 volume whose only nonzero voxel is at (0, 0, 1). -/
def volC6 : Volume :=
  Volume.mk 2 2 2 (fun x y z => if x = 0 ∧ y = 0 ∧ z = 1 then 1 else 0) 1

/-- tfConst: a constant opaque-white transfer function. -/
def tfConst : ℤ → TFColor := fun _ => TFColor.mk 1 1 1 1

/-- buf4: a 4-byte frame buffer with nonzero initial contents. -/
def buf4 : FrameBuffer := FrameBuffer.mk 4 (fun _ => 5)

/-- buf16: a cleared 16-byte frame buffer. -/
def buf16 : FrameBuffer := FrameBuffer.mk 16 (fun _ => 0)

lemma halfDiagonal_onesVol2 : halfDiagonal onesVol2 = 1 := by
  rw [halfDiagonal]
  norm_num [onesVol2]

lemma halfDiagonal_onesVol3 : halfDiagonal onesVol3 = 2 := by
  rw [halfDiagonal]
  norm_num [onesVol3]

lemma mipDepths_onesVol2 : mipDepths onesVol2 = [-1] := by
  rw [mipDepths, halfDiagonal_onesVol2]
  decide

lemma mipDepths_onesVol3 : mipDepths onesVol3 = [-2, 0] := by
  rw [mipDepths, halfDiagonal_onesVol3]
  decide

/-- C1: the claim demands that render_slicer, render_mip and
render_compositing fail fast with a descriptive error on degenerate
inputs.  The code has no such check: with image_size = 0 every entry
point silently succeeds, returning the cleared buffer untouched (and
with volume_maximum = 0 it would divide by zero rather than raise a
descriptive error).  This theorem exhibits the divergence by evaluating
all three entry points at the degenerate input image_size = 0. -/
theorem C1_no_failfast_on_degenerate (view : ℕ → ℚ) (volume : Volume)
    (tfunc : ℤ → TFColor) (image : FrameBuffer) (interactive : Bool) :
    render_slicer view volume 0 image interactive = some (clearFB image) ∧
    render_mip view volume 0 image interactive = some (clearFB image) ∧
    render_compositing view volume tfunc 0 image interactive = some (clearFB image) := by
  refine ⟨?_, ?_, ?_⟩ <;> cases interactive <;> rfl

/-- C2: the channel conversion clamps on the wrong quantity: it tests
`c < 255` instead of bounding `floor(c * 255)`, so the channel value
c = 2 is written as 510, above 255 — the byte written is not
`floor(c*255)` clamped to 255, contradicting the claimed (and the
source's own `(0...255)` comment's) range. -/
theorem C2_clamp_overflow : channelByte 2 = 510 ∧ ¬(channelByte 2 ≤ 255) := by
  have h : channelByte 2 = 510 := by
    rw [channelByte, if_pos (by norm_num)]
    have h2 : ((2:ℚ) * 255) = ((510:ℤ) : ℚ) := by norm_num
    rw [h2, Int.floor_intCast]
  refine ⟨h, ?_⟩
  rw [h]
  norm_num

/-- C4: any coordinate outside [0, dim-1) on its axis makes get_voxel
return exactly 0 (the guard at line 19), with no clamping and no fault
(the embedding is total). -/
theorem C4_out_of_range_zero (volume : Volume) (x y z : ℚ)
    (h : x < 0 ∨ x ≥ (volume.dim_x : ℚ) - 1 ∨ y < 0 ∨ y ≥ (volume.dim_y : ℚ) - 1 ∨
      z < 0 ∨ z ≥ (volume.dim_z : ℚ) - 1) :
    get_voxel volume x y z = 0 := by
  rw [get_voxel, if_pos (by tauto)]

/-- C4 witness: the out-of-range sample (-1, 0, 0) on the 2x2x2 volume
of ones returns 0. -/
theorem C4_out_of_range_zero_witness :
    ((-1 : ℚ) < 0 ∨ (-1 : ℚ) ≥ (onesVol2.dim_x : ℚ) - 1 ∨ (0:ℚ) < 0 ∨
      (0:ℚ) ≥ (onesVol2.dim_y : ℚ) - 1 ∨ (0:ℚ) < 0 ∨ (0:ℚ) ≥ (onesVol2.dim_z : ℚ) - 1) ∧
    get_voxel onesVol2 (-1) 0 0 = 0 :=
  ⟨Or.inl (by norm_num),
    C4_out_of_range_zero onesVol2 (-1) 0 0 (Or.inl (by norm_num))⟩

/-- C5: at an exactly integral in-range coordinate the interpolation
weights degenerate (alpha = beta = gamma = 0) and get_voxel returns the
raw stored voxel value. -/
theorem C5_integer_coordinate (volume : Volume) (nx ny nz : ℕ)
    (hx : (nx : ℚ) < (volume.dim_x : ℚ) - 1)
    (hy : (ny : ℚ) < (volume.dim_y : ℚ) - 1)
    (hz : (nz : ℚ) < (volume.dim_z : ℚ) - 1) :
    get_voxel volume (nx : ℚ) (ny : ℚ) (nz : ℚ) = volume.data nx ny nz := by
  have hg : ¬((nx:ℚ) < 0 ∨ (ny:ℚ) < 0 ∨ (nz:ℚ) < 0 ∨
      (nx:ℚ) ≥ (volume.dim_x : ℚ) - 1 ∨ (ny:ℚ) ≥ (volume.dim_y : ℚ) - 1 ∨
      (nz:ℚ) ≥ (volume.dim_z : ℚ) - 1) := by
    push_neg
    exact ⟨Nat.cast_nonneg nx, Nat.cast_nonneg ny, Nat.cast_nonneg nz, hx, hy, hz⟩
  rw [get_voxel, if_neg hg]
  simp only [Int.floor_natCast, Int.ceil_natCast]
  push_cast
  ring

/-- C5 witness: sampling the 3x3x3 volume of ones at the integer point
(1, 1, 1) returns the stored value. -/
theorem C5_integer_coordinate_witness :
    ((1:ℕ) : ℚ) < (onesVol3.dim_x : ℚ) - 1 ∧
    ((1:ℕ) : ℚ) < (onesVol3.dim_y : ℚ) - 1 ∧
    ((1:ℕ) : ℚ) < (onesVol3.dim_z : ℚ) - 1 ∧
    get_voxel onesVol3 ((1:ℕ) : ℚ) ((1:ℕ) : ℚ) ((1:ℕ) : ℚ) = onesVol3.data 1 1 1 :=
  ⟨by norm_num [onesVol3], by norm_num [onesVol3], by norm_num [onesVol3],
    C5_integer_coordinate onesVol3 1 1 1 (by norm_num [onesVol3])
      (by norm_num [onesVol3]) (by norm_num [onesVol3])⟩

/-- C6: the claim (and the spec) require the standard trilinear weights,
each neighbor weighted by the product of the per-axis factors.  The code
pairs the beta factor with the z offset and the gamma factor with the y
offset on the four middle terms (lines 59-62), so at (0, 0, 1/2) on a
volume whose only nonzero voxel is (0, 0, 1) it returns 0 where the
standard trilinear sum of the spec returns 1/2. -/
theorem C6_trilinear_weights_bug :
    get_voxel volC6 0 0 (1/2) = 0 ∧ trilinear_spec volC6 0 0 (1/2) = 1/2 := by
  constructor
  · rw [get_voxel, if_neg (by norm_num [volC6])]
    norm_num [volC6, floor_half, ceil_half]
  · rw [trilinear_spec, if_neg (by norm_num [volC6])]
    simp only [Fintype.sum_prod_type, Fin.sum_univ_two]
    norm_num [volC6, floor_half, ceil_half]

/-- C7: in compositing mode, if the frontmost (last processed) sample is
fully opaque then the per-ray result is exactly that sample's
premultiplied color with alpha 1, independent of everything behind
it: the (1 - voxel.a) factor zeroes the accumulated contribution. -/
theorem C7_opaque_front (colors : List TFColor) (c : TFColor) (ha : c.a = 1) :
    compositeRay (colors ++ [c]) = some (TFColor.mk c.r c.g c.b 1) := by
  rw [compositeRay_append_one, compositeStep_opaque _ _ ha]

/-- C7 witness: an opaque frontmost sample after a semi-transparent red
layer yields exactly the frontmost color. -/
theorem C7_opaque_front_witness :
    (TFColor.mk (1/2) (1/3) (1/4) 1).a = 1 ∧
    compositeRay [TFColor.mk 1 0 0 (1/2), TFColor.mk (1/2) (1/3) (1/4) 1]
      = some (TFColor.mk (1/2) (1/3) (1/4) 1) :=
  ⟨rfl, C7_opaque_front [TFColor.mk 1 0 0 (1/2)] (TFColor.mk (1/2) (1/3) (1/4) 1) rfl⟩

/-- sel of an all-zero pixel is zero in every channel. -/
lemma sel_zero (c : ℕ) : sel c ((0, 0, 0, 0) : ℤ × ℤ × ℤ × ℤ) = 0 := by
  rw [sel]
  split_ifs <;> rfl

/-- C3 counterexample: for the 2x2x2 volume D = 1, and the depth +D = 1
is not iterated: `range(-diagonal, diagonal, 2)` excludes its upper
bound, refuting "from -D to +D inclusive". -/
theorem C3_counterexample :
    halfDiagonal onesVol2 = 1 ∧ (1:ℤ) ∉ mipDepths onesVol2 := by
  refine ⟨halfDiagonal_onesVol2, ?_⟩
  rw [mipDepths_onesVol2]
  decide

/-- C3 amended: the MIP depth loop iterates exactly the k with
-D ≤ k < D and k ≡ -D (mod 2) (the upper bound +D is excluded), takes
the voxel sample at each k, keeps the running maximum starting from 0,
and normalizes the result by volume_maximum with the same grayscale and
binary-alpha rule as slicing mode. -/
theorem C3_amended_mip_loop (volume : Volume) (view : ℕ → ℚ) (S i j : ℕ) (k : ℤ) :
    (k ∈ mipDepths volume ↔
      -(halfDiagonal volume : ℤ) ≤ k ∧ k < (halfDiagonal volume : ℤ) ∧
        (2:ℤ) ∣ (k + halfDiagonal volume)) ∧
    mipPixel view volume S i j
      = grayscaleBytes (specMipValue view volume S i j) volume.maximum := by
  constructor
  · rw [mipDepths, mem_pyRange_pos (by norm_num), sub_neg_eq_add]
  · exact mipPixel_spec view volume S i j

/-- C8: with an everywhere-zero magnitude volume every sample is skipped
(never accumulated, not even as a transparent layer), every rendered ray
has no contributing sample, and the whole image is transparent black:
the render returns the all-zero buffer. -/
theorem C8_zero_magnitude_all_transparent (view : ℕ → ℚ)
    (annotation_volume magnitude_volume : Volume) (tfunc : ℤ → TFColor)
    (S : ℕ) (image : FrameBuffer) (interactive csv_flag : Bool) (precision : ℕ)
    (hmag : ∀ x y z, magnitude_volume.data x y z = 0)
    (hsz : 4*(S*S) ≤ image.size) :
    visualize_annotations_only view annotation_volume magnitude_volume tfunc S image
      interactive csv_flag precision
      = some (FrameBuffer.mk image.size (fun _ => 0)) := by
  rw [visualize_annotations_only, renderLoop_eq_gridFold]
  obtain ⟨e, he, hframe, hbyte⟩ :=
    gridFold_spec image.size S
      (fun i j => some (annotationPixel view annotation_volume magnitude_volume
        tfunc precision S i j))
      (pyRangeNat S (if interactive then 20 else 1))
      (pyRangeNat S (if interactive then 20 else 1))
      (clearFB image).data hsz
      (fun a ha => mem_pyRangeNat_lt ha) (fun b hb => mem_pyRangeNat_lt hb)
      (fun a _ b _ => rfl)
  rw [he]
  have he0 : e = fun _ => 0 := by
    funext m
    by_cases hq : m / 4 < S*S
    · have hS : 0 < S := by
        rcases Nat.eq_zero_or_pos S with h0 | h0
        · rw [h0] at hq
          omega
        · exact h0
      have hi : m / 4 % S < S := Nat.mod_lt _ hS
      have hj : m / 4 / S < S := (Nat.div_lt_iff_lt_mul hS).mpr hq
      have hd1 : S * (m/4/S) + m/4 % S = m/4 := Nat.div_add_mod (m/4) S
      have hd1' : (m/4/S) * S + m/4 % S = m/4 := by
        rw [Nat.mul_comm] at hd1
        exact hd1
      have hd2 : 4 * (m/4) + m % 4 = m := Nat.div_add_mod m 4
      have hdecomp : m = ((m/4/S)*S + m/4 % S)*4 + m % 4 := by omega
      have hb := hbyte (m/4 % S) (m/4/S) (m % 4)
        (annotationPixel view annotation_volume magnitude_volume tfunc precision S
          (m/4 % S) (m/4/S)) hi hj (by omega) rfl
      rw [annotationPixel_zero view annotation_volume magnitude_volume tfunc precision S
        (m/4 % S) (m/4/S) hmag] at hb
      rw [hdecomp, hb]
      split_ifs <;> first | exact sel_zero (m % 4) | rfl
    · rw [hframe m ?_]
      · rfl
      · intro a ha b hb hEq
        have haS := mem_pyRangeNat_lt ha
        have hbS := mem_pyRangeNat_lt hb
        have hlt := pixIndex_lt haS hbS
        omega
  rw [he0]
  rfl

/-- C8 witness: rendering with the all-zero 2x2x2 magnitude volume at
image size 1 into a 4-byte buffer with nonzero initial contents yields
the all-zero image. -/
theorem C8_zero_magnitude_all_transparent_witness :
    (∀ x y z, zeroVolume.data x y z = 0) ∧ 4*(1*1) ≤ buf4.size ∧
    visualize_annotations_only idView onesVol2 zeroVolume tfConst 1 buf4 false false 1
      = some (FrameBuffer.mk buf4.size (fun _ => 0)) :=
  ⟨fun _ _ _ => rfl, by norm_num [buf4],
    C8_zero_magnitude_all_transparent idView onesVol2 zeroVolume tfConst 1 buf4
      false false 1 (fun _ _ _ => rfl) (by norm_num [buf4])⟩

lemma channelByte_one : channelByte 1 = 255 := by
  rw [channelByte, if_pos (by norm_num)]
  have h : ((1:ℚ) * 255) = ((255:ℤ) : ℚ) := by norm_num
  rw [h, Int.floor_intCast]

lemma slicerPixel_cex : slicerPixel idView onesVol2 1 0 0 = (0, 0, 0, 0) := by
  have hv : get_voxel onesVol2 (1/2 : ℚ) (1/2) 1 = 0 := by
    rw [get_voxel, if_pos (by norm_num [onesVol2])]
  have hco : slicerCoords idView onesVol2 1 0 0 = (1/2, 1/2, 1) := by
    norm_num [slicerCoords, idView, onesVol2]
  rw [slicerPixel, hco]
  show grayscaleBytes (get_voxel onesVol2 (1/2) (1/2) 1) onesVol2.maximum = (0, 0, 0, 0)
  rw [hv, grayscaleBytes]
  norm_num [channelByte_zero, onesVol2]

lemma mipPixel_cex : mipPixel idView onesVol2 1 0 0 = (255, 255, 255, 255) := by
  have hco : rayCoords idView onesVol2 1 0 0 (-1) = (1/2, 1/2, 0) := by
    norm_num [rayCoords, idView, onesVol2]
  have hv : get_voxel onesVol2 (1/2 : ℚ) (1/2) 0 = 1 := by
    rw [get_voxel, if_neg (by norm_num [onesVol2])]
    norm_num [onesVol2, floor_half, ceil_half]
  rw [mipPixel, mipDepths_onesVol2, List.foldl_cons, List.foldl_nil]
  show grayscaleBytes
    (if (0:ℚ) < get_voxel onesVol2 (rayCoords idView onesVol2 1 0 0 (-1)).1
        (rayCoords idView onesVol2 1 0 0 (-1)).2.1 (rayCoords idView onesVol2 1 0 0 (-1)).2.2
      then get_voxel onesVol2 (rayCoords idView onesVol2 1 0 0 (-1)).1
        (rayCoords idView onesVol2 1 0 0 (-1)).2.1 (rayCoords idView onesVol2 1 0 0 (-1)).2.2
      else 0) onesVol2.maximum = (255, 255, 255, 255)
  rw [hco]
  show grayscaleBytes
    (if (0:ℚ) < get_voxel onesVol2 (1/2) (1/2) 0 then get_voxel onesVol2 (1/2) (1/2) 0 else 0)
    onesVol2.maximum = (255, 255, 255, 255)
  rw [hv, if_pos (by norm_num), grayscaleBytes]
  norm_num [channelByte_one, onesVol2]

/-- negVol3: a uniform 3x3x3 volume of value -1 (maximum -1). -/
def negVol3 : Volume := Volume.mk 3 3 3 (fun _ _ _ => -1) (-1)

lemma halfDiagonal_negVol3 : halfDiagonal negVol3 = 2 := by
  rw [halfDiagonal]
  norm_num [negVol3]

lemma mipDepths_negVol3 : mipDepths negVol3 = [-2, 0] := by
  rw [mipDepths, halfDiagonal_negVol3]
  decide

lemma get_voxel_negVol3_center : get_voxel negVol3 1 1 (3/2 : ℚ) = -1 := by
  rw [get_voxel, if_neg (by norm_num [negVol3])]
  norm_num [negVol3, floor_3half, ceil_3half]

lemma slicerPixel_neg : slicerPixel idView negVol3 1 0 0 = (255, 255, 255, 255) := by
  have hco : slicerCoords idView negVol3 1 0 0 = (1, 1, 3/2) := by
    norm_num [slicerCoords, idView, negVol3]
  rw [slicerPixel, hco]
  show grayscaleBytes (get_voxel negVol3 1 1 (3/2)) negVol3.maximum = (255, 255, 255, 255)
  rw [get_voxel_negVol3_center, grayscaleBytes]
  norm_num [channelByte_one, negVol3]

lemma mipPixel_neg : mipPixel idView negVol3 1 0 0 = (0, 0, 0, 0) := by
  have hco2 : rayCoords idView negVol3 1 0 0 (-2) = (1, 1, -(1/2)) := by
    norm_num [rayCoords, idView, negVol3]
  have hco0 : rayCoords idView negVol3 1 0 0 0 = (1, 1, 3/2) := by
    norm_num [rayCoords, idView, negVol3]
  have hv2 : get_voxel negVol3 1 1 (-(1/2) : ℚ) = 0 := by
    rw [get_voxel, if_pos (by norm_num)]
  rw [mipPixel, mipDepths_negVol3, List.foldl_cons, List.foldl_cons, List.foldl_nil]
  norm_num [hco2, hco0, hv2, get_voxel_negVol3_center, grayscaleBytes, channelByte_zero]

/-- C9 counterexample: two concrete divergences between MIP and slicing
on uniform constant-value volumes.  First, on the uniform 2x2x2 volume
of ones, with the axis-aligned view and image size 1, slicing samples
the out-of-range central depth and writes transparent black, while MIP
samples depth -1 in range and writes opaque white.  Second, on the
uniform 3x3x3 volume of value -1 both the slicer's depth-0 sample point
and the iterated MIP depth 0 sample point are in range, yet slicing
normalizes the quotient of -1 by -1 and writes opaque white while MIP's running maximum,
initialized to 0, stays at 0 and writes transparent black: the images
also differ for negative uniform values with all-in-range samples. -/
theorem C9_counterexample :
    ((render_slicer idView onesVol2 1 buf4 false).map (fun b => b.data 0) = some 0 ∧
      (render_mip idView onesVol2 1 buf4 false).map (fun b => b.data 0) = some 255) ∧
    (inRange negVol3 (slicerCoords idView negVol3 1 0 0).1
        (slicerCoords idView negVol3 1 0 0).2.1 (slicerCoords idView negVol3 1 0 0).2.2 ∧
      (0:ℤ) ∈ mipDepths negVol3 ∧
      inRange negVol3 (rayCoords idView negVol3 1 0 0 0).1
        (rayCoords idView negVol3 1 0 0 0).2.1 (rayCoords idView negVol3 1 0 0 0).2.2 ∧
      (render_slicer idView negVol3 1 buf4 false).map (fun b => b.data 0) = some 255 ∧
      (render_mip idView negVol3 1 buf4 false).map (fun b => b.data 0) = some 0) := by
  refine ⟨⟨?_, ?_⟩, ?_, ?_, ?_, ?_, ?_⟩
  · have hcongr : render_slicer idView onesVol2 1 buf4 false
        = renderLoop 1 1 (fun _ _ => some ((0, 0, 0, 0) : ℤ × ℤ × ℤ × ℤ)) buf4 := by
      rw [render_slicer]
      apply renderLoop_congr
      intro a b ha hb
      interval_cases a
      interval_cases b
      rw [slicerPixel_cex]
    rw [hcongr]
    decide
  · have hcongr : render_mip idView onesVol2 1 buf4 false
        = renderLoop 1 1 (fun _ _ => some ((255, 255, 255, 255) : ℤ × ℤ × ℤ × ℤ)) buf4 := by
      rw [render_mip]
      apply renderLoop_congr
      intro a b ha hb
      interval_cases a
      interval_cases b
      rw [mipPixel_cex]
    rw [hcongr]
    decide
  · norm_num [inRange, slicerCoords, idView, negVol3]
  · rw [mipDepths_negVol3]
    decide
  · norm_num [inRange, rayCoords, idView, negVol3]
  · have hcongr : render_slicer idView negVol3 1 buf4 false
        = renderLoop 1 1 (fun _ _ => some ((255, 255, 255, 255) : ℤ × ℤ × ℤ × ℤ)) buf4 := by
      rw [render_slicer]
      apply renderLoop_congr
      intro a b ha hb
      interval_cases a
      interval_cases b
      rw [slicerPixel_neg]
    rw [hcongr]
    decide
  · have hcongr : render_mip idView negVol3 1 buf4 false
        = renderLoop 1 1 (fun _ _ => some ((0, 0, 0, 0) : ℤ × ℤ × ℤ × ℤ)) buf4 := by
      rw [render_mip]
      apply renderLoop_congr
      intro a b ha hb
      interval_cases a
      interval_cases b
      rw [mipPixel_neg]
    rw [hcongr]
    decide

/-- C9 amended: for a uniform constant-value volume with a nonnegative
value, MIP and slicing produce identical images provided that, at every
pixel of the image, the central (depth 0) slicer sample point is in
range and at least one iterated MIP depth has its sample point in
range.  Both restrictions are forced by C9_counterexample: the images
differ when the two modes' sample points disagree on in-rangeness (the
slicer samples only depth 0 while the MIP loop iterates -D ≤ k < D,
excluding +D and, when D is odd, depth 0, and out-of-range samples read
as 0), and they also differ for a negative uniform value, because MIP's
running maximum is initialized to 0 and never drops below it while the
slicer reports the sampled value. -/
theorem C9_uniform_mip_eq_slicer (volume : Volume) (view : ℕ → ℚ) (S : ℕ)
    (image : FrameBuffer) (interactive : Bool) (q : ℚ) (hq : 0 ≤ q)
    (hdata : ∀ x y z, volume.data x y z = q)
    (hrays : ∀ i j, i < S → j < S →
      inRange volume (slicerCoords view volume S i j).1
        (slicerCoords view volume S i j).2.1 (slicerCoords view volume S i j).2.2 ∧
      ∃ k ∈ mipDepths volume,
        inRange volume (rayCoords view volume S i j k).1
          (rayCoords view volume S i j k).2.1 (rayCoords view volume S i j k).2.2) :
    render_mip view volume S image interactive
      = render_slicer view volume S image interactive := by
  rw [render_mip, render_slicer]
  apply renderLoop_congr
  intro a b ha hb
  obtain ⟨hslice, k0, hk0, hink0⟩ := hrays a b ha hb
  refine congrArg some ?_
  rw [mipPixel_spec]
  have hsv : get_voxel volume (slicerCoords view volume S a b).1
      (slicerCoords view volume S a b).2.1 (slicerCoords view volume S a b).2.2 = q :=
    get_voxel_const hdata hslice
  have hmv : specMipValue view volume S a b = q := by
    rw [specMipValue]
    refine foldl_max_eq hq _ ?_ 0 (Or.inl rfl) ?_
    · intro x hx
      obtain ⟨k, hk, rfl⟩ := List.mem_map.mp hx
      exact get_voxel_const_cases hdata _ _ _
    · exact Or.inl ⟨_, List.mem_map.mpr ⟨k0, hk0, rfl⟩, get_voxel_const hdata hink0⟩
  rw [hmv, ← hsv]
  rfl

/-- C9 witness: on the uniform 3x3x3 volume of ones at image size 1 with
the axis-aligned view, every sampled point is in range and the MIP and
slicer images coincide. -/
theorem C9_uniform_mip_eq_slicer_witness :
    (0:ℚ) ≤ 1 ∧ (∀ x y z, onesVol3.data x y z = 1) ∧
    render_mip idView onesVol3 1 buf16 false
      = render_slicer idView onesVol3 1 buf16 false := by
  refine ⟨by norm_num, fun _ _ _ => rfl, ?_⟩
  apply C9_uniform_mip_eq_slicer onesVol3 idView 1 buf16 false 1 (by norm_num)
    (fun _ _ _ => rfl)
  intro i j hi hj
  interval_cases i
  interval_cases j
  constructor
  · norm_num [slicerCoords, inRange, idView, onesVol3]
  · refine ⟨0, ?_, ?_⟩
    · rw [mipDepths_onesVol3]
      decide
    · norm_num [rayCoords, inRange, idView, onesVol3]

/-- C10 amended: at full quality (interactive_mode off, stride 1) every
render mode writes the 4 bytes of pixel (i, j) at byte offsets
(j*S+i)*4 through (j*S+i)*4+3 of the frame buffer, and any frame buffer
shorter than 4*S*S bytes makes every render mode fault (an index error,
modelled as `none`).  The compositing clauses require a volume with
halfDiagonal ≥ 1: on smaller volumes its depth loop is empty and it
crashes on `last_color.r` before writing any pixel, on any buffer; in
interactive mode skipped pixels are not written, so a shorter buffer
need not fault.  Both restrictions are exhibited by
C10_counterexample. -/
theorem C10_byte_layout (view : ℕ → ℚ)
    (volume annotation_volume magnitude_volume : Volume)
    (tfunc : ℤ → TFColor) (precision : ℕ) (csv_flag : Bool) (S : ℕ)
    (image : FrameBuffer) (hS : 1 ≤ S) (hD : 1 ≤ halfDiagonal volume) :
    (image.size < 4*(S*S) →
      render_slicer view volume S image false = none ∧
      render_mip view volume S image false = none ∧
      render_compositing view volume tfunc S image false = none ∧
      visualize_annotations_only view annotation_volume magnitude_volume tfunc S image
        false csv_flag precision = none) ∧
    (4*(S*S) ≤ image.size → ∀ i j c, i < S → j < S → c < 4 →
      (render_slicer view volume S image false).map (fun b => b.data ((j*S+i)*4+c))
        = some (sel c (slicerPixel view volume S i j)) ∧
      (render_mip view volume S image false).map (fun b => b.data ((j*S+i)*4+c))
        = some (sel c (mipPixel view volume S i j)) ∧
      (∃ px, compositingPixel view volume tfunc S i j = some px ∧
        (render_compositing view volume tfunc S image false).map
          (fun b => b.data ((j*S+i)*4+c)) = some (sel c px)) ∧
      (visualize_annotations_only view annotation_volume magnitude_volume tfunc S image
          false csv_flag precision).map (fun b => b.data ((j*S+i)*4+c))
        = some (sel c (annotationPixel view annotation_volume magnitude_volume tfunc
            precision S i j))) := by
  constructor
  · intro hsz
    exact ⟨renderLoop_oob S _ image hS hsz, renderLoop_oob S _ image hS hsz,
      renderLoop_oob S _ image hS hsz, renderLoop_oob S _ image hS hsz⟩
  · intro hsz i j c hi hj hc
    refine ⟨?_, ?_, ?_, ?_⟩
    · exact renderLoop_byte S (fun a b => some (slicerPixel view volume S a b)) image
        hsz (fun a b _ _ => rfl) i j c hi hj hc _ rfl
    · exact renderLoop_byte S (fun a b => some (mipPixel view volume S a b)) image
        hsz (fun a b _ _ => rfl) i j c hi hj hc _ rfl
    · obtain ⟨px, hpx⟩ := compositingPixel_isSome view volume tfunc S i j hD
      refine ⟨px, hpx, renderLoop_byte S (compositingPixel view volume tfunc S) image
        hsz (fun a b _ _ => ?_) i j c hi hj hc px hpx⟩
      obtain ⟨p, hp⟩ := compositingPixel_isSome view volume tfunc S a b hD
      rw [hp]
      rfl
    · exact renderLoop_byte S (fun a b => some (annotationPixel view annotation_volume
        magnitude_volume tfunc precision S a b)) image
        hsz (fun a b _ _ => rfl) i j c hi hj hc _ rfl

/-- C10 witness: for image size 2 on a 16-byte buffer, the red byte of
pixel (i=1, j=0) of the slicer render sits at offset (0*2+1)*4 = 4. -/
theorem C10_byte_layout_witness :
    (1:ℕ) ≤ 2 ∧ 1 ≤ halfDiagonal onesVol2 ∧
    (render_slicer idView onesVol2 2 buf16 false).map (fun b => b.data ((0*2+1)*4+0))
      = some (sel 0 (slicerPixel idView onesVol2 2 1 0)) := by
  refine ⟨by norm_num, ?_, ?_⟩
  · rw [halfDiagonal_onesVol2]
  · exact ((C10_byte_layout idView onesVol2 onesVol2 zeroVolume tfConst 1 false 2 buf16
      (by norm_num) (by rw [halfDiagonal_onesVol2])).2 (by norm_num [buf16]) 1 0 0
      (by norm_num) (by norm_num) (by norm_num)).1

/-- halfDiagonal agrees with the floored real square-root expression of
the source (`math.floor(math.sqrt(dx**2+dy**2+dz**2) / 2)`), justifying
the Nat.sqrt embedding. -/
lemma halfDiagonal_eq_floor (volume : Volume) :
    halfDiagonal volume
      = ⌊Real.sqrt ((volume.dim_x ^ 2 + volume.dim_y ^ 2 + volume.dim_z ^ 2 : ℕ) : ℝ) / 2⌋₊ := by
  rw [halfDiagonal, Nat.floor_div_ofNat, Real.nat_floor_real_sqrt_eq_nat_sqrt]

lemma slicerPixel_s5 (a b : ℕ) : slicerPixel idView onesVol2 5 a b = (0, 0, 0, 0) := by
  have hz : (slicerCoords idView onesVol2 5 a b).2.2 = 1 := by
    norm_num [slicerCoords, idView, onesVol2]
  have hv : get_voxel onesVol2 (slicerCoords idView onesVol2 5 a b).1
      (slicerCoords idView onesVol2 5 a b).2.1 (slicerCoords idView onesVol2 5 a b).2.2 = 0 := by
    rw [get_voxel, if_pos]
    refine Or.inr (Or.inr (Or.inr (Or.inr (Or.inr ?_))))
    rw [hz]
    norm_num [onesVol2]
  rw [slicerPixel]
  show grayscaleBytes (get_voxel onesVol2 (slicerCoords idView onesVol2 5 a b).1
      (slicerCoords idView onesVol2 5 a b).2.1 (slicerCoords idView onesVol2 5 a b).2.2)
    onesVol2.maximum = (0, 0, 0, 0)
  rw [hv, grayscaleBytes]
  norm_num [channelByte_zero, onesVol2]

/-- vol1: a 1x1x1 volume of value 1; its half-diagonal floor is 0, so
the compositing depth loop `range(0, 0, -2)` is empty. -/
def vol1 : Volume := Volume.mk 1 1 1 (fun _ _ _ => 1) 1

lemma halfDiagonal_vol1 : halfDiagonal vol1 = 0 := by
  rw [halfDiagonal]
  norm_num [vol1]

lemma compositingPixel_vol1_none (i j : ℕ) :
    compositingPixel idView vol1 tfConst 1 i j = none := by
  have hd : pyRange (halfDiagonal vol1) (-(halfDiagonal vol1 : ℤ)) (-2) = [] := by
    rw [halfDiagonal_vol1]
    decide
  rw [compositingPixel, hd]
  rfl

/-- C10 counterexample: two clauses of the claim fail as universally
stated.  First, the fault clause is not unconditional: in interactive
mode (stride 10) at image size 5 only pixel (0, 0) is written, so the
render succeeds on a 4-byte buffer even though the buffer is shorter
than image_size^2 * 4 = 100 bytes.  Second, the byte-layout clause does
not hold for every render mode on every volume even at full quality: on
the 1x1x1 volume the half-diagonal is 0, the compositing depth loop is
empty, and render_compositing crashes on `last_color.r` before writing
any pixel, even into an amply sized buffer. -/
theorem C10_counterexample :
    (buf4.size < 4*(5*5) ∧ (render_slicer idView onesVol2 5 buf4 true).isSome = true) ∧
    (halfDiagonal vol1 = 0 ∧ 4*(1*1) ≤ buf4.size ∧
      render_compositing idView vol1 tfConst 1 buf4 false = none) := by
  refine ⟨⟨by norm_num [buf4], ?_⟩, halfDiagonal_vol1, by norm_num [buf4], ?_⟩
  · have hcongr : render_slicer idView onesVol2 5 buf4 true
        = renderLoop 5 10 (fun _ _ => some ((0, 0, 0, 0) : ℤ × ℤ × ℤ × ℤ)) buf4 := by
      rw [render_slicer]
      apply renderLoop_congr
      intro a b _ _
      rw [slicerPixel_s5]
    rw [hcongr]
    decide
  · have hcongr : render_compositing idView vol1 tfConst 1 buf4 false
        = renderLoop 1 1 (fun _ _ => (none : Option (ℤ × ℤ × ℤ × ℤ))) buf4 := by
      rw [render_compositing]
      apply renderLoop_congr
      intro a b _ _
      rw [compositingPixel_vol1_none]
    rw [hcongr]
    rfl
